import Mathlib

/-!
Verification development for the git-leaderboard stats pipeline
(source file: the JavaScript module holding the cache, the GitHub fetchers,
`aggregateStats` and `fetchAllStats`).

Modelling conventions, used consistently below:

* Timestamps are integer milliseconds since the Unix epoch, i.e. the value of
  `new Date(isoString).getTime()` / `Date.now()`.  ISO date strings that the
  source stores and later re-parses are modelled directly by their millisecond
  value (`new Date` is injective and monotone on them).
* The browser timezone is taken to be UTC, so `d.setHours(0,0,0,0)` truncates a
  time to a multiple of 86400000 ms and `d.getDay()` is
  `(days since epoch + 4) mod 7` (1970-01-01 was a Thursday).
* `Math.floor(x / n)` for a positive integer `n` is `Int.ediv x n`
  (Euclidean = floor division for positive divisors), and the JS remainder used
  through `getDay` is `Int.emod` (always in `[0, n)` here).
* JS `null` / `undefined` fields are `Option`; a string-valued field used in a
  truthiness test is `Option String` with `none` for the falsy values.
* JS objects used as string/number-keyed dictionaries (`userMap`,
  `weeklyData`, `weekMap`, the review map, `localStorage`) are association
  lists in insertion order; `Object.values` / `Object.entries` enumerate the
  list.  The only order-sensitive consumer sorts its entries afterwards.
* Arithmetic is exact (all quantities stay far below 2^53, where JS number
  arithmetic on integers is exact).
-/

namespace GitLeaderboard

/-- JS truthiness of the `daysFilter : number | null` argument:
`null` and `0` are falsy, any other day count is truthy. -/
def dfActive : Option Nat → Bool
  | none => false
  | some n => n != 0

/-- Sunday-aligned week start, in seconds, of a millisecond timestamp.  JS:
`const s = new Date(t); s.setHours(0,0,0,0); s.setDate(s.getDate() - s.getDay());
Math.floor(s.getTime() / 1000)` (this exact sequence appears at every
week-bucketing site of the source). -/
def weekTsOfMs (t : Int) : Int :=
  let d := t / 86400000
  (d - (d + 4) % 7) * 86400

/-- Cutoff in seconds: `daysFilter ? Math.floor((Date.now() - daysFilter * 24*60*60*1000) / 1000) : 0`. -/
def cutoffTs (daysFilter : Option Nat) (now : Int) : Int :=
  if dfActive daysFilter then (now - (daysFilter.getD 0 : Int) * 86400000) / 1000 else 0

/-- A commit as produced by `fetchCommits` (fields read by `aggregateStats`).
`user` is `commit.author.login`; the source only pushes commits with a truthy
login, but `aggregateStats` re-checks `!commit.user`, hence the `Option`. -/
structure Commit where
  sha : String
  user : Option String
  avatar_url : Option String
  message : String
  date : Int
  url : String
deriving DecidableEq

/-- A pull request as produced by `fetchPullRequests` (fields read by
`aggregateStats`).  `additions`/`deletions` are `undefined` unless the PR was
enriched from its detail endpoint; the enrichment fields `commits` and
`changed_files` are never read by `aggregateStats` and are omitted. -/
structure PR where
  number : Nat
  user : Option String
  avatar_url : Option String
  created_at : Int
  merged_at : Option Int
  state : String
  title : Option String
  url : String
  additions : Option Nat
  deletions : Option Nat
deriving DecidableEq

/-- Reference to a reviewed PR stored inside the review map (`{number, title, url}`). -/
structure PRRef where
  number : Nat
  title : String
  url : String
deriving DecidableEq

/-- One user's entry of the review map.  The source handles both a legacy plain
count (`typeof reviewInfo === 'number'`) and the full
`{count, submitted_at, prs}` record. -/
inductive ReviewInfo where
  | countOnly (n : Nat)
  | full (count : Nat) (submitted_at : List Int) (prs : List PRRef)
deriving DecidableEq

/-- `typeof reviewInfo === 'number' ? reviewInfo : reviewInfo.count` -/
def reviewCount : ReviewInfo → Nat
  | .countOnly n => n
  | .full c _ _ => c

/-- `typeof reviewInfo === 'object' ? reviewInfo.submitted_at : []` -/
def reviewDates : ReviewInfo → List Int
  | .countOnly _ => []
  | .full _ s _ => s

/-- `typeof reviewInfo === 'object' ? reviewInfo.prs : []` -/
def reviewPRs : ReviewInfo → List PRRef
  | .countOnly _ => []
  | .full _ _ p => p

/-- One element of `repoDataArray`: `{repoName, commits, prs, reviews}`. -/
structure RepoData where
  repoName : String
  commits : List Commit
  prs : List PR
  reviews : List (String × ReviewInfo)
deriving DecidableEq

/-- One week bucket of `userMap[user].weeklyData[weekTs]`. -/
structure WeekData where
  additions : Nat
  deletions : Nat
  commits : Nat
  pullRequests : Nat
  reviews : Nat
deriving DecidableEq

def WeekData.zero : WeekData := ⟨0, 0, 0, 0, 0⟩

/-- Entry of the bounded `commitsList`. -/
structure CommitItem where
  sha : String
  message : String
  url : String
  date : Int
  repo : String
deriving DecidableEq

/-- Entry of the bounded `prsList`. -/
structure PRItem where
  number : Nat
  title : String
  url : String
  state : String
  merged : Bool
  date : Int
  repo : String
deriving DecidableEq

/-- Entry of the bounded `reviewsList` (`{...prInfo, repo}`). -/
structure ReviewItem where
  number : Nat
  title : String
  url : String
  repo : String
deriving DecidableEq

/-- The mutable per-user accumulator `userMap[user]`. -/
structure UserStats where
  user : String
  avatarUrl : Option String
  additions : Nat
  deletions : Nat
  commits : Nat
  pullRequests : Nat
  reviews : Nat
  reposContributed : List String
  weeklyData : List (Int × WeekData)
  prsList : List PRItem
  reviewsList : List ReviewItem
  commitsList : List CommitItem
deriving DecidableEq

/-- `userMap`, an insertion-ordered string-keyed object. -/
abbrev UserMap := List (String × UserStats)

/-- The fresh accumulator the source assigns on first sight of a user. -/
def freshUser (u : String) (avatar : Option String) : UserStats :=
  ⟨u, avatar, 0, 0, 0, 0, 0, [], [], [], [], []⟩

/-- `if (!userMap[user]) userMap[user] = fresh; ...mutate userMap[user]...`:
update the entry in place, or append a freshly initialised one. -/
def upsertUser (m : UserMap) (u : String) (fresh : UserStats) (f : UserStats → UserStats) : UserMap :=
  match m with
  | [] => [(u, f fresh)]
  | (k, v) :: rest => if k = u then (k, f v) :: rest else (k, v) :: upsertUser rest u fresh f

/-- `if (!weeklyData[weekTs]) weeklyData[weekTs] = zero; ...mutate weeklyData[weekTs]...` -/
def bumpWeek (wd : List (Int × WeekData)) (ts : Int) (f : WeekData → WeekData) : List (Int × WeekData) :=
  match wd with
  | [] => [(ts, f WeekData.zero)]
  | (k, v) :: rest => if k = ts then (k, f v) :: rest else (k, v) :: bumpWeek rest ts f

/-- `Set.prototype.add` on `reposContributed` (only `size` is consumed). -/
def addToSet (l : List String) (x : String) : List String :=
  if x ∈ l then l else l ++ [x]

/-- The mutations applied to `userMap[user]` for one kept commit: totals,
contributed-repo set, bounded commit list, week bucket. -/
def applyCommit (repoName : String) (c : Commit) (s : UserStats) : UserStats :=
  let s := { s with commits := s.commits + 1,
                    reposContributed := addToSet s.reposContributed repoName }
  let s := if s.commitsList.length < 20 then
      { s with commitsList :=
          s.commitsList ++ [⟨c.sha.take 7, c.message, c.url, c.date, repoName⟩] }
    else s
  let bump := fun (w : WeekData) => { w with commits := w.commits + 1 }
  { s with weeklyData := bumpWeek s.weeklyData (weekTsOfMs c.date) bump }

/-- Per-commit processing of `aggregateStats` (skip on falsy author, cutoff
filter at second granularity, then `applyCommit`). -/
def processCommit (daysFilter : Option Nat) (now : Int) (repoName : String)
    (m : UserMap) (c : Commit) : UserMap :=
  match c.user with
  | none => m
  | some u =>
    if dfActive daysFilter ∧ c.date / 1000 < cutoffTs daysFilter now then m
    else upsertUser m u (freshUser u c.avatar_url) (applyCommit repoName c)

/-- The mutations applied to `userMap[user]` for one kept PR: totals,
contributed-repo set, bounded PR list, merged-PR line stats, week bucket. -/
def applyPR (repoName : String) (pr : PR) (s : UserStats) : UserStats :=
  let prDate := pr.merged_at.getD pr.created_at
  let s := { s with pullRequests := s.pullRequests + 1,
                    reposContributed := addToSet s.reposContributed repoName }
  let s := if s.prsList.length < 20 then
      { s with prsList := s.prsList ++
          [⟨pr.number, pr.title.getD ("PR #" ++ toString pr.number), pr.url, pr.state,
            pr.merged_at.isSome, prDate, repoName⟩] }
    else s
  let s := if pr.merged_at.isSome ∧ pr.additions.isSome then
      { s with additions := s.additions + pr.additions.getD 0,
               deletions := s.deletions + pr.deletions.getD 0 }
    else s
  let wts := weekTsOfMs prDate
  let bumpPR := fun (w : WeekData) => { w with pullRequests := w.pullRequests + 1 }
  let s := { s with weeklyData := bumpWeek s.weeklyData wts bumpPR }
  let bumpLines := fun (w : WeekData) =>
    { w with additions := w.additions + pr.additions.getD 0,
             deletions := w.deletions + pr.deletions.getD 0 }
  if pr.merged_at.isSome ∧ pr.additions.isSome then
    { s with weeklyData := bumpWeek s.weeklyData wts bumpLines }
  else s

/-- Per-PR processing of `aggregateStats`: filter on
`pr.merged_at || pr.created_at`, then `applyPR`. -/
def processPR (daysFilter : Option Nat) (now : Int) (repoName : String)
    (m : UserMap) (pr : PR) : UserMap :=
  match pr.user with
  | none => m
  | some u =>
    let prDate := pr.merged_at.getD pr.created_at
    if dfActive daysFilter ∧ prDate / 1000 < cutoffTs daysFilter now then m
    else upsertUser m u (freshUser u pr.avatar_url) (applyPR repoName pr)

/-- Guarded push onto `reviewsList`: capacity 20 and per-(number, current repo)
deduplication via `!reviewsList.find(p => p.number === prInfo.number && p.repo === repoName)`. -/
def pushReviewItem (repoName : String) (l : List ReviewItem) (p : PRRef) : List ReviewItem :=
  if l.length < 20 ∧ (l.find? fun q => q.number == p.number && q.repo == repoName).isNone then
    l ++ [⟨p.number, p.title, p.url, repoName⟩]
  else l

/-- One timestamped review: millisecond-granularity cutoff test, then count and
week bucket. -/
def processReviewDate (daysFilter : Option Nat) (now : Int) (s : UserStats) (dateMs : Int) :
    UserStats :=
  let cutoffMs : Int := if dfActive daysFilter then now - (daysFilter.getD 0 : Int) * 86400000 else 0
  if dfActive daysFilter ∧ dateMs < cutoffMs then s
  else
    let s := { s with reviews := s.reviews + 1 }
    let bump := fun (w : WeekData) => { w with reviews := w.reviews + 1 }
    { s with weeklyData := bumpWeek s.weeklyData (weekTsOfMs dateMs) bump }

/-- The mutations applied to `userMap[user]` for one review-map entry. -/
def applyReviewInfo (daysFilter : Option Nat) (now : Int) (repoName : String)
    (info : ReviewInfo) (s : UserStats) : UserStats :=
  let s := { s with reviewsList := (reviewPRs info).foldl (pushReviewItem repoName) s.reviewsList }
  let s :=
    if reviewDates info ≠ [] then (reviewDates info).foldl (processReviewDate daysFilter now) s
    else { s with reviews := s.reviews + reviewCount info }
  if s.reviews > 0 then { s with reposContributed := addToSet s.reposContributed repoName } else s

/-- Per-user review-map processing of `aggregateStats`. -/
def processReviewEntry (daysFilter : Option Nat) (now : Int) (repoName : String)
    (m : UserMap) (entry : String × ReviewInfo) : UserMap :=
  upsertUser m entry.1 (freshUser entry.1 none) (applyReviewInfo daysFilter now repoName entry.2)

/-- One iteration of `repoDataArray.forEach`: commits, then PRs, then the
review map (the three inputs are typed, so the source's `Array.isArray` /
`typeof` guards always pass). -/
def processRepo (daysFilter : Option Nat) (now : Int) (m : UserMap) (rd : RepoData) : UserMap :=
  let m1 := rd.commits.foldl (processCommit daysFilter now rd.repoName) m
  let m2 := rd.prs.foldl (processPR daysFilter now rd.repoName) m1
  rd.reviews.foldl (processReviewEntry daysFilter now rd.repoName) m2

/-- The accumulation phase of `aggregateStats`. -/
def buildUserMap (repoDataArray : List RepoData) (daysFilter : Option Nat) (now : Int) : UserMap :=
  repoDataArray.foldl (processRepo daysFilter now) []

/-- The all-zero-activity exclusion filter of `aggregateStats`. -/
def hasActivity (s : UserStats) : Bool :=
  s.additions > 0 || s.deletions > 0 || s.commits > 0 || s.pullRequests > 0 || s.reviews > 0

/-- One element of the emitted `weeklyData` array. -/
structure WeekEntry where
  week : Int
  additions : Nat
  deletions : Nat
  commits : Nat
  pullRequests : Nat
  reviews : Nat
deriving DecidableEq

def zeroWeekEntry (ts : Int) : WeekEntry := ⟨ts, 0, 0, 0, 0, 0⟩

instance decRelWeekAsc : DecidableRel fun (a b : WeekEntry) => a.week ≤ b.week :=
  fun a b => inferInstanceAs (Decidable (a.week ≤ b.week))

instance decRelPRDesc : DecidableRel fun (a b : PRItem) => b.date ≤ a.date :=
  fun a b => inferInstanceAs (Decidable (b.date ≤ a.date))

instance decRelCommitDesc : DecidableRel fun (a b : CommitItem) => b.date ≤ a.date :=
  fun a b => inferInstanceAs (Decidable (b.date ≤ a.date))

/-- Association-list lookup for the integer-keyed week map. -/
def assocFind (k : Int) : List (Int × WeekEntry) → Option WeekEntry
  | [] => none
  | (k', v) :: rest => if k' = k then some v else assocFind k rest

/-- Merge one entry of the user's weekly array into `weekMap`, renormalising its
key to the week boundary (`weekMap[normalizedTs]` is created as
`{...w, week: normalizedTs}` or summed field-wise into the existing entry). -/
def insertWeekEntry (n : Int) (w : WeekEntry) : List (Int × WeekEntry) → List (Int × WeekEntry)
  | [] => [(n, { w with week := n })]
  | (k, e) :: rest =>
    if k = n then
      (k, { e with commits := e.commits + w.commits,
                   pullRequests := e.pullRequests + w.pullRequests,
                   reviews := e.reviews + w.reviews,
                   additions := e.additions + w.additions,
                   deletions := e.deletions + w.deletions }) :: rest
    else (k, e) :: insertWeekEntry n w rest

/-- The `weekMap` construction of `aggregateStats` (normalisation of each
stored week timestamp via seconds → ms → Sunday-aligned week start). -/
def buildWeekMap (l : List WeekEntry) : List (Int × WeekEntry) :=
  l.foldl (fun acc w => insertWeekEntry (weekTsOfMs (w.week * 1000)) w acc) []

/-- `daysFilter ? Math.ceil(daysFilter / 7) : 52` (note `Math.ceil(n/7) = (n+6)/7`
on naturals). -/
def maxWeeks (daysFilter : Option Nat) : Nat :=
  if dfActive daysFilter then (daysFilter.getD 0 + 6) / 7 else 52

/-- One iteration of the zero-filling loop:
`weekMap[ts] ? weekMap[ts] : zero entry`. -/
def fillWeekAt (wm : List (Int × WeekEntry)) (ts : Int) : WeekEntry :=
  match assocFind ts wm with
  | some e => e
  | none => zeroWeekEntry ts

/-- The zero-filling loop over the fixed week grid
`ts = startTs + i * 7*24*60*60`, `0 ≤ i < maxWeeks`. -/
def fillWeeks (wm : List (Int × WeekEntry)) (startTs : Int) (mw : Nat) : List WeekEntry :=
  (List.range mw).map fun (i : Nat) => fillWeekAt wm (startTs + (i : Int) * 604800)

/-- One emitted leaderboard record. -/
structure OutRecord where
  user : String
  avatarUrl : Option String
  additions : Nat
  deletions : Nat
  net : Int
  commits : Nat
  pullRequests : Nat
  reviews : Nat
  reposCount : Nat
  weeklyData : List WeekEntry
  prsList : List PRItem
  reviewsList : List ReviewItem
  commitsList : List CommitItem
deriving DecidableEq

instance : Inhabited OutRecord := ⟨⟨"", none, 0, 0, 0, 0, 0, 0, 0, [], [], [], []⟩⟩

/-- `Object.entries(stats.weeklyData).map(...).sort((a,b) => a.week - b.week)`:
the user's weekly buckets as an array sorted ascending by week key (the
object's keys are distinct, so any enumeration order yields this array). -/
def userWeeklyArray (s : UserStats) : List WeekEntry :=
  List.insertionSort (fun a b : WeekEntry => a.week ≤ b.week)
    (s.weeklyData.map fun p => ⟨p.1, p.2.additions, p.2.deletions, p.2.commits,
                                p.2.pullRequests, p.2.reviews⟩)

/-- The emission phase of `aggregateStats` for one surviving user: sorted weekly
array, normalised week map, zero-filled fixed-length window, derived `net`,
final sorts of the bounded lists. -/
def emitRecord (daysFilter : Option Nat) (now : Int) (s : UserStats) : OutRecord :=
  let mw := maxWeeks daysFilter
  let endTs := weekTsOfMs now
  let startTs := endTs - ((mw : Int) - 1) * 604800
  let wm := buildWeekMap (userWeeklyArray s)
  { user := s.user
    avatarUrl := s.avatarUrl
    additions := s.additions
    deletions := s.deletions
    net := (s.additions : Int) - (s.deletions : Int)
    commits := s.commits
    pullRequests := s.pullRequests
    reviews := s.reviews
    reposCount := s.reposContributed.length
    weeklyData := fillWeeks wm startTs mw
    prsList := List.insertionSort (fun a b : PRItem => b.date ≤ a.date) s.prsList
    reviewsList := s.reviewsList
    commitsList := List.insertionSort (fun a b : CommitItem => b.date ≤ a.date) s.commitsList }

/-- `aggregateStats(repoDataArray, daysFilter)`, with `Date.now()` passed
explicitly as `now`. -/
def aggregateStats (repoDataArray : List RepoData) (daysFilter : Option Nat) (now : Int) :
    List OutRecord :=
  (((buildUserMap repoDataArray daysFilter now).map Prod.snd).filter hasActivity).map
    (emitRecord daysFilter now)

/-! ## Response cache (`getFromCache` / `saveToCache`)

`localStorage` is modelled as a map from full key (namespace ++ logical key)
to the parsed cache entry `{data, timestamp}`; `saveToCache` is the only
writer, and it always stores `JSON.stringify({data, timestamp})`, so holding
the parsed entry loses nothing (`JSON.parse` of `JSON.stringify` is the
identity on JSON values, and the source's parse-failure catch, which returns
null, never fires on such entries).  Storage quota is modelled as unbounded,
so the `QuotaExceededError` recovery path of `saveToCache` never runs; the
500KB size rejection, which happens before any storage call, is modelled
exactly, via a faithful `JSON.stringify`. -/

/-- A JSON value (the payloads the source caches are plain JSON data). -/
inductive Json where
  | null
  | bool (b : Bool)
  | num (n : Int)
  | str (s : String)
  | arr (elems : List Json)
  | obj (fields : List (String × Json))

/-- Lowercase hex digit, as produced by JS `charCodeAt().toString(16)`. -/
def hexDigit (n : Nat) : Char :=
  if n < 10 then Char.ofNat (48 + n) else Char.ofNat (87 + n)

/-- JSON.stringify escaping of one character of a string literal. -/
def escChar (c : Char) : String :=
  if c = '"' then ("\\\"")
  else if c = '\\' then ("\\\\")
  else if c.toNat = 8 then ("\\b")
  else if c.toNat = 9 then ("\\t")
  else if c.toNat = 10 then ("\\n")
  else if c.toNat = 12 then ("\\f")
  else if c.toNat = 13 then ("\\r")
  else if c.toNat < 32 then
    "\\u00" ++ String.singleton (hexDigit (c.toNat / 16)) ++ String.singleton (hexDigit (c.toNat % 16))
  else String.singleton c

def escapeChars : List Char → String
  | [] => ""
  | c :: cs => escChar c ++ escapeChars cs

/-- JSON.stringify of a string value. -/
def jsonQuote (s : String) : String := "\"" ++ escapeChars s.data ++ "\""

mutual

/-- `JSON.stringify` (no indentation, as called by the source). -/
def Json.stringify : Json → String
  | .null => "null"
  | .bool true => "true"
  | .bool false => "false"
  | .num n => toString n
  | .str s => jsonQuote s
  | .arr xs => "[" ++ stringifyElems xs ++ "]"
  | .obj fs => "\x7b" ++ stringifyFields fs ++ "\x7d"

def stringifyElems : List Json → String
  | [] => ""
  | [x] => Json.stringify x
  | x :: xs => Json.stringify x ++ "," ++ stringifyElems xs

def stringifyFields : List (String × Json) → String
  | [] => ""
  | [(k, v)] => jsonQuote k ++ ":" ++ Json.stringify v
  | (k, v) :: fs => jsonQuote k ++ ":" ++ Json.stringify v ++ "," ++ stringifyFields fs

end

/-- A stored cache entry: `{ data, timestamp }`. -/
structure CacheEntry where
  data : Json
  timestamp : Int

/-- The JSON object `saveToCache` serializes. -/
def entryJson (e : CacheEntry) : Json :=
  Json.obj [(("data" : String), e.data), (("timestamp" : String), Json.num e.timestamp)]

/-- The key-value map behind `localStorage` (restricted to cache use). -/
def CacheStore := String → Option CacheEntry

def emptyStore : CacheStore := fun _ => none

/-- `const CACHE_PREFIX = 'github_leaderboard_cache_'` (the key namespace). -/
def cacheNs : String := "github_leaderboard_cache_"

/-- `const CACHE_EXPIRY_MS = 30 * 60 * 1000` -/
def CACHE_EXPIRY_MS : Int := 30 * 60 * 1000

/-- `localStorage.setItem`. -/
def storeSet (k : String) (e : CacheEntry) (st : CacheStore) : CacheStore :=
  fun k' => if k' = k then some e else st k'

/-- `localStorage.removeItem`. -/
def storeRemove (k : String) (st : CacheStore) : CacheStore :=
  fun k' => if k' = k then none else st k'

/-- `getFromCache(key)`: returns the cached payload if present and fresh;
deletes and returns null when the entry is older than the TTL.  Returns the
possibly shrunk store alongside the result. -/
def getFromCache (store : CacheStore) (key : String) (now : Int) : Option Json × CacheStore :=
  match store (cacheNs ++ key) with
  | none => (none, store)
  | some e =>
    if CACHE_EXPIRY_MS < now - e.timestamp then (none, storeRemove (cacheNs ++ key) store)
    else (some e.data, store)

/-- `saveToCache(key, data)`: serializes `{data, timestamp: Date.now()}`, skips
payloads whose serialization exceeds 500KB, otherwise stores the entry. -/
def saveToCache (store : CacheStore) (key : String) (data : Json) (now : Int) : CacheStore :=
  let e : CacheEntry := ⟨data, now⟩
  let serialized := Json.stringify (entryJson e)
  if 500 * 1024 < serialized.length then store
  else storeSet (cacheNs ++ key) e store

/-! ## Contributor-stats fetch (`fetchStats`) and its 202 retry loop

The network is an oracle `resp : Nat → StatsResp` giving the response of the
n-th request to the `stats/contributors` endpoint.  The function result is
tagged by which code path produced it; `fallbackCommits` denotes the tail call
to `fetchCommitsAsStats`.  Alongside the outcome the model returns the number
of requests issued and the list of artificial delays (ms) slept between them. -/

structure AuthorInfo where
  login : Option String
  avatar_url : Option String
deriving DecidableEq

/-- One raw week of a `stats/contributors` contributor (`{w, a, d, c}`). -/
structure RawWeek where
  w : Int
  a : Option Nat
  d : Option Nat
  c : Option Nat
deriving DecidableEq

structure RawContributor where
  author : Option AuthorInfo
  total : Nat
  weeks : Option (List RawWeek)
deriving DecidableEq

structure MinWeek where
  w : Int
  a : Nat
  d : Nat
  c : Nat
deriving DecidableEq

structure MinContributor where
  login : Option String
  avatar_url : Option String
  total : Nat
  weeks : List MinWeek
deriving DecidableEq

/-- `Array.prototype.slice(-n)`: the last `n` elements. -/
def sliceLastN (n : Nat) (l : List α) : List α := l.drop (l.length - n)

/-- The `minimalStats` mapping applied to a 200 response of `stats/contributors`. -/
def minimalStats (data : List RawContributor) : List MinContributor :=
  (data.map fun ct =>
    ({ login := ct.author.bind (·.login)
       avatar_url := ct.author.bind (·.avatar_url)
       total := ct.total
       weeks := ((sliceLastN 52 (ct.weeks.getD [])).map fun w =>
           (⟨w.w, w.a.getD 0, w.d.getD 0, w.c.getD 0⟩ : MinWeek)).filter
         fun w => w.a > 0 || w.d > 0 || w.c > 0 } : MinContributor)).filter
    fun c => c.login.isSome

/-- Classified response of one request to `stats/contributors`. -/
inductive StatsResp where
  | accepted
  | noContent
  | rateLimited
  | otherError
  | ok (data : List RawContributor)
deriving DecidableEq

inductive FetchStatsOutcome where
  | fromCache (d : List MinContributor)
  | stats (d : List MinContributor)
  | emptyRepo
  | fallbackCommits
  | throwRateLimit
deriving DecidableEq

/-- `fetchStats(token, org, repoName, retries)`: cache check, then one request;
202 sleeps 1.5s and retries (recursing with `retries - 1`, re-checking the
unchanged cache), exhausted retries or any non-rate-limit error fall back to
`fetchCommitsAsStats`, 204 yields the empty list, a 403 with no remaining rate
budget throws.  Returns (outcome, number of requests, delays slept). -/
def fetchStats (cached : Option (List MinContributor)) (resp : Nat → StatsResp)
    (attempt : Nat) (retries : Nat) : FetchStatsOutcome × Nat × List Nat :=
  match cached with
  | some d => (.fromCache d, 0, [])
  | none =>
    match resp attempt with
    | .accepted =>
      match retries with
      | r + 1 =>
        let rest := fetchStats cached resp (attempt + 1) r
        (rest.1, rest.2.1 + 1, 1500 :: rest.2.2)
      | 0 => (.fallbackCommits, 1, [])
    | .noContent => (.emptyRepo, 1, [])
    | .rateLimited => (.throwRateLimit, 1, [])
    | .otherError => (.fallbackCommits, 1, [])
    | .ok data => if data = [] then (.fallbackCommits, 1, []) else (.stats (minimalStats data), 1, [])

/-! ## PR pagination with since-filter (`fetchPullRequests`, page loop)

The page loop of `fetchPullRequests` in its `sinceDate`-present branch
(`maxPages = 10`); pages are an oracle `pages : Nat → Option (List RawPR)`
(`none` models a non-ok HTTP response, which breaks the loop).  Returns the
kept basic PR records and the list of page numbers actually requested.  The
no-`sinceDate` branch paginates without a page cap and is outside this model;
the subsequent merged-PR enrichment loop mutates only the returned records. -/

structure RawPR where
  number : Nat
  user : Option AuthorInfo
  created_at : Int
  merged_at : Option Int
  closed_at : Option Int
  updated_at : Int
  state : String
  title : Option String
  url : String
deriving DecidableEq

/-- `new Date(pr.merged_at || pr.closed_at || pr.updated_at).getTime()`. -/
def prEffDate (pr : RawPR) : Int :=
  ((pr.merged_at.orElse fun _ => pr.closed_at).getD pr.updated_at)

/-- The record pushed onto `prs` for each kept PR. -/
structure PRBasic where
  number : Nat
  user : Option String
  avatar_url : Option String
  created_at : Int
  merged_at : Option Int
  state : String
  title : Option String
  url : String
deriving DecidableEq

def toBasicPR (pr : RawPR) : PRBasic :=
  ⟨pr.number, pr.user.bind (·.login), pr.user.bind (·.avatar_url), pr.created_at,
   pr.merged_at, pr.state, pr.title, pr.url⟩

def fetchPRPagesAux (pages : Nat → Option (List RawPR)) (sinceTs : Int) :
    Nat → Nat → List PRBasic × List Nat
  | _, 0 => ([], [])
  | page, fuel + 1 =>
    match pages page with
    | none => ([], [page])
    | some data =>
      let filtered := data.filter fun pr => sinceTs ≤ prEffDate pr
      if 0 < data.length ∧ filtered.length = 0 then ([], [page])
      else
        let basics := filtered.map toBasicPR
        if data.length < 100 then (basics, [page])
        else
          let rest := fetchPRPagesAux pages sinceTs (page + 1) fuel
          (basics ++ rest.1, page :: rest.2)

/-- The page loop of `fetchPullRequests` with a `sinceDate`
(`sinceTs = new Date(sinceDate).getTime()`): pages 1..10. -/
def fetchPullRequestsSince (pages : Nat → Option (List RawPR)) (sinceTs : Int) :
    List PRBasic × List Nat :=
  fetchPRPagesAux pages sinceTs 1 10

/-! ## Orchestrator (`fetchAllStats`)

Per-repository collection (the three awaited fetches inside the `try` block)
is an oracle `collect : Nat → String → Except String RepoFetchResult`, indexed
by loop position and repository name; `Except.error msg` models any exception
thrown while fetching that repository.  The progress and snapshot callbacks
are modelled by recording the values they would receive.
`Math.round(((i+1)/total)*100)` is modelled as exact rational rounding. -/

structure Repo where
  name : String
  default_branch : Option String
deriving DecidableEq

structure RepoFetchResult where
  commits : List Commit
  prs : List PR
  reviews : List (String × ReviewInfo)
deriving DecidableEq

inductive LogEvent where
  | start (repo : String) (index total : Nat)
  | complete (repo : String) (index total : Nat) (hasStats hasPRs : Bool)
      (prCount mergedPRCount totalCommits totalAdditions totalDeletions : Nat)
  | error (repo : String) (index total : Nat) (msg : String)
deriving DecidableEq

/-- `Math.round(num / den)` for positive `den`: floor(num/den + 1/2). -/
def jsRound (num den : Nat) : Nat := (2 * num + den) / (2 * den)

/-- The `repoDataArray` element pushed for one repository: the fetched data on
success, `{repoName, commits: [], prs: [], reviews: {}}` on a thrown error. -/
def repoItem (collect : Nat → String → Except String RepoFetchResult) (i : Nat) (repo : Repo) :
    RepoData :=
  match collect i repo.name with
  | .ok r => ⟨repo.name, r.commits, r.prs, r.reviews⟩
  | .error _ => ⟨repo.name, [], [], []⟩

/-- The log events emitted while processing one repository. -/
def repoLogs (collect : Nat → String → Except String RepoFetchResult) (total i : Nat)
    (repo : Repo) : List LogEvent :=
  match collect i repo.name with
  | .ok r =>
    let mergedPRs := r.prs.filter fun pr => pr.merged_at.isSome
    let totalAdditions := (mergedPRs.map fun pr => pr.additions.getD 0).sum
    let totalDeletions := (mergedPRs.map fun pr => pr.deletions.getD 0).sum
    [LogEvent.start repo.name (i + 1) total,
     LogEvent.complete repo.name (i + 1) total
       (decide (0 < r.commits.length) || decide (0 < mergedPRs.length))
       (decide (0 < r.prs.length))
       r.prs.length mergedPRs.length r.commits.length totalAdditions totalDeletions]
  | .error msg =>
    [LogEvent.start repo.name (i + 1) total, LogEvent.error repo.name (i + 1) total msg]

def fetchAllStatsLoop (collect : Nat → String → Except String RepoFetchResult)
    (daysFilter : Option Nat) (now : Int) (total : Nat) :
    Nat → List RepoData → List Repo →
      List RepoData × List LogEvent × List Nat × List (List OutRecord)
  | _, acc, [] => (acc, [], [], [])
  | i, acc, repo :: rest =>
    let acc' := acc ++ [repoItem collect i repo]
    let prog := jsRound ((i + 1) * 100) total
    let snap := aggregateStats acc' daysFilter now
    let restR := fetchAllStatsLoop collect daysFilter now total (i + 1) acc' rest
    (restR.1, repoLogs collect total i repo ++ restR.2.1, prog :: restR.2.2.1, snap :: restR.2.2.2)

structure RunResult where
  final : List OutRecord
  repoDataArray : List RepoData
  logs : List LogEvent
  progress : List Nat
  snapshots : List (List OutRecord)
deriving DecidableEq

/-- `fetchAllStats(token, org, repos, onProgress, daysFilter, onDataUpdate, onLog)`:
sequential per-repository collection with error isolation, progress
percentages, progressive aggregation snapshots, and the final aggregation. -/
def fetchAllStats (collect : Nat → String → Except String RepoFetchResult)
    (repos : List Repo) (daysFilter : Option Nat) (now : Int) : RunResult :=
  let L := fetchAllStatsLoop collect daysFilter now repos.length 0 [] repos
  ⟨aggregateStats L.1 daysFilter now, L.1, L.2.1, L.2.2.1, L.2.2.2⟩

/-- Reference form of the repo-data array: one `repoItem` per repository, in
order (proved equal to the loop's accumulator below). -/
def buildItems (collect : Nat → String → Except String RepoFetchResult) :
    Nat → List Repo → List RepoData
  | _, [] => []
  | i, repo :: rest => repoItem collect i repo :: buildItems collect (i + 1) rest

/-- Reference form of the emitted log stream. -/
def joinLogs (collect : Nat → String → Except String RepoFetchResult) (total : Nat) :
    Nat → List Repo → List LogEvent
  | _, [] => []
  | i, repo :: rest => repoLogs collect total i repo ++ joinLogs collect total (i + 1) rest

/-- Reference form of the reported progress percentages. -/
def progList (total : Nat) : Nat → List Repo → List Nat
  | _, [] => []
  | i, _ :: rest => jsRound ((i + 1) * 100) total :: progList total (i + 1) rest

/-! ## Order instances for the final date sorts -/

instance : IsTotal CommitItem fun (a b : CommitItem) => b.date ≤ a.date :=
  ⟨fun a b => le_total b.date a.date⟩

instance : IsTrans CommitItem fun (a b : CommitItem) => b.date ≤ a.date :=
  ⟨fun _ _ _ hab hbc => le_trans hbc hab⟩

instance : IsTotal PRItem fun (a b : PRItem) => b.date ≤ a.date :=
  ⟨fun a b => le_total b.date a.date⟩

instance : IsTrans PRItem fun (a b : PRItem) => b.date ≤ a.date :=
  ⟨fun _ _ _ hab hbc => le_trans hbc hab⟩

/-! ## Concrete inputs used by witnesses and counterexamples -/

/-- A 600000-character payload, larger than the 500KB cache limit. -/
def bigStr : String := String.mk (List.replicate 600000 'a')

/-- Commit number `i` of the bounded-list counterexample: millisecond timestamps
increase with `i`, so the last commit of the input is the most recent one. -/
def clc (i : Nat) : Commit := ⟨"c" ++ toString i, some ("alice"), some ("av"), "m", 1000 * i, "u"⟩

/-- 21 commits by one author, oldest first: commit `c21` is the most recent
qualifying commit but arrives once the bounded list is already full. -/
def repo21 : RepoData := ⟨"r", (List.range 21).map fun i => clc (i + 1), [], []⟩

/-- A PR kept by a since-filter of 40 (effective date `closed_at = 50`). -/
def prKeptW : RawPR := ⟨1, some ⟨some ("bob"), none⟩, 5, none, some 50, 60, "closed", none, "u"⟩

/-- A PR dropped by a since-filter of 40 (effective date `updated_at = 10`). -/
def prOldW : RawPR := ⟨2, some ⟨some ("bob"), none⟩, 5, none, none, 10, "open", none, "u"⟩

/-- Page oracle: page 1 is full (100 PRs, all kept), page 2 is nonempty but
fully filtered out, later pages are empty. -/
def pagesW : Nat → Option (List RawPR) :=
  fun p => if p = 1 then some (List.replicate 100 prKeptW)
    else if p = 2 then some [prOldW] else some []

def reposW : List Repo := [⟨"ra", none⟩, ⟨"rb", none⟩]

/-- Collection oracle for the orchestrator witness: the first repository
succeeds with empty data, the second throws. -/
def collectW : Nat → String → Except String RepoFetchResult :=
  fun i _ => if i = 0 then .ok ⟨[], [], []⟩ else .error ("boom")

/-! # Theorems -/

/-- Every output record of `aggregateStats` is the emission of some accumulator
entry that passed the all-zero-activity filter. -/
theorem mem_aggregateStats {repoData : List RepoData} {df : Option Nat} {now : Int} {r : OutRecord}
    (hr : r ∈ aggregateStats repoData df now) :
    ∃ s, s ∈ (buildUserMap repoData df now).map Prod.snd ∧ hasActivity s = true
      ∧ r = emitRecord df now s := by
  unfold aggregateStats at hr
  obtain ⟨s, hs, rfl⟩ := List.mem_map.1 hr
  exact ⟨s, (List.mem_filter.1 hs).1, (List.mem_filter.1 hs).2, rfl⟩

theorem emitRecord_user (df : Option Nat) (now : Int) (s : UserStats) :
    (emitRecord df now s).user = s.user := rfl

theorem emitRecord_additions (df : Option Nat) (now : Int) (s : UserStats) :
    (emitRecord df now s).additions = s.additions := rfl

theorem emitRecord_deletions (df : Option Nat) (now : Int) (s : UserStats) :
    (emitRecord df now s).deletions = s.deletions := rfl

theorem emitRecord_commits (df : Option Nat) (now : Int) (s : UserStats) :
    (emitRecord df now s).commits = s.commits := rfl

theorem emitRecord_pullRequests (df : Option Nat) (now : Int) (s : UserStats) :
    (emitRecord df now s).pullRequests = s.pullRequests := rfl

theorem emitRecord_reviews (df : Option Nat) (now : Int) (s : UserStats) :
    (emitRecord df now s).reviews = s.reviews := rfl

theorem emitRecord_weeklyData (df : Option Nat) (now : Int) (s : UserStats) :
    (emitRecord df now s).weeklyData
      = fillWeeks (buildWeekMap (userWeeklyArray s))
          (weekTsOfMs now - ((maxWeeks df : Int) - 1) * 604800) (maxWeeks df) := rfl

theorem emitRecord_prsList (df : Option Nat) (now : Int) (s : UserStats) :
    (emitRecord df now s).prsList
      = List.insertionSort (fun a b : PRItem => b.date ≤ a.date) s.prsList := rfl

theorem emitRecord_reviewsList (df : Option Nat) (now : Int) (s : UserStats) :
    (emitRecord df now s).reviewsList = s.reviewsList := rfl

theorem emitRecord_commitsList (df : Option Nat) (now : Int) (s : UserStats) :
    (emitRecord df now s).commitsList
      = List.insertionSort (fun a b : CommitItem => b.date ≤ a.date) s.commitsList := rfl

/-- C1: every record in the list returned by `aggregateStats` satisfies
`net = additions - deletions` exactly; `net` is computed once at emission from
the final `additions`/`deletions` totals (the accumulator has no `net` field,
so it is never stored incrementally). -/
theorem aggregateStats_net_eq (repoData : List RepoData) (df : Option Nat) (now : Int)
    (r : OutRecord) (hr : r ∈ aggregateStats repoData df now) :
    r.net = (r.additions : Int) - (r.deletions : Int) := by
  obtain ⟨s, -, -, rfl⟩ := mem_aggregateStats hr
  rfl

theorem aggregateStats_net_eq_witness :
    (aggregateStats [⟨"w1", [⟨"abc", some ("alice"), none, "m", 0, "u"⟩], [], []⟩] none 0).headI.net
      = ((aggregateStats [⟨"w1", [⟨"abc", some ("alice"), none, "m", 0, "u"⟩], [], []⟩]
            none 0).headI.additions : Int)
        - ((aggregateStats [⟨"w1", [⟨"abc", some ("alice"), none, "m", 0, "u"⟩], [], []⟩]
            none 0).headI.deletions : Int) :=
  aggregateStats_net_eq [⟨"w1", [⟨"abc", some ("alice"), none, "m", 0, "u"⟩], [], []⟩] none 0 _
    (by decide)

/-- C4: every record in the list returned by `aggregateStats` has at least one
of additions, deletions, commits, pullRequests, reviews strictly positive; a
contributor whose totals are all zero after filtering never appears. -/
theorem aggregateStats_excludes_all_zero (repoData : List RepoData) (df : Option Nat) (now : Int)
    (r : OutRecord) (hr : r ∈ aggregateStats repoData df now) :
    0 < r.additions ∨ 0 < r.deletions ∨ 0 < r.commits ∨ 0 < r.pullRequests ∨ 0 < r.reviews := by
  obtain ⟨s, -, hs, rfl⟩ := mem_aggregateStats hr
  simp only [hasActivity, Bool.or_eq_true, decide_eq_true_eq, gt_iff_lt] at hs
  simpa only [emitRecord_additions, emitRecord_deletions, emitRecord_commits,
    emitRecord_pullRequests, emitRecord_reviews, or_assoc] using hs

theorem aggregateStats_excludes_all_zero_witness :
    0 < (aggregateStats [⟨"w4", [⟨"abc", some ("bea"), none, "m", 0, "u"⟩], [], []⟩]
          none 0).headI.additions
    ∨ 0 < (aggregateStats [⟨"w4", [⟨"abc", some ("bea"), none, "m", 0, "u"⟩], [], []⟩]
          none 0).headI.deletions
    ∨ 0 < (aggregateStats [⟨"w4", [⟨"abc", some ("bea"), none, "m", 0, "u"⟩], [], []⟩]
          none 0).headI.commits
    ∨ 0 < (aggregateStats [⟨"w4", [⟨"abc", some ("bea"), none, "m", 0, "u"⟩], [], []⟩]
          none 0).headI.pullRequests
    ∨ 0 < (aggregateStats [⟨"w4", [⟨"abc", some ("bea"), none, "m", 0, "u"⟩], [], []⟩]
          none 0).headI.reviews :=
  aggregateStats_excludes_all_zero [⟨"w4", [⟨"abc", some ("bea"), none, "m", 0, "u"⟩], [], []⟩]
    none 0 _ (by decide)

/-- C6: when the contributor-stats endpoint keeps answering 202 (statistics
being computed), `fetchStats` with its default 3 retries issues 4 requests in
total, sleeping the fixed 1.5s delay before each of the 3 retries, and then
falls back to deriving stats from recent commits (`fetchCommitsAsStats`); the
still-computing case never yields an error outcome. -/
theorem fetchStats_202_fallback (resp : Nat → StatsResp) (h : ∀ n, resp n = .accepted) :
    fetchStats none resp 0 3 = (.fallbackCommits, 4, [1500, 1500, 1500]) := by
  simp [fetchStats, h]

theorem fetchStats_202_fallback_witness :
    fetchStats none (fun _ => StatsResp.accepted) 0 3
      = (.fallbackCommits, 4, [1500, 1500, 1500]) :=
  fetchStats_202_fallback (fun _ => StatsResp.accepted) (fun _ => rfl)

theorem length_escapeChars_replicate (n : Nat) :
    (escapeChars (List.replicate n 'a')).length = n := by
  induction n with
  | zero => rfl
  | succ n ih =>
    have h1 : (escChar 'a').length = 1 := rfl
    rw [List.replicate_succ]
    simp only [escapeChars, String.length_append, h1, ih]
    omega

/-- The serialized entry holding the 600000-character payload exceeds the 500KB
cache limit. -/
theorem big_serialized_length :
    500 * 1024 < (Json.stringify (entryJson ⟨Json.str bigStr, 0⟩)).length := by
  have hq : (jsonQuote bigStr).length = 600002 := by
    unfold jsonQuote bigStr
    rw [show (String.mk (List.replicate 600000 'a')).data = List.replicate 600000 'a' from rfl]
    simp only [String.length_append, length_escapeChars_replicate]
    rfl
  have hd : (jsonQuote ("data")).length = 6 := rfl
  have ht : (jsonQuote ("timestamp")).length = 11 := rfl
  simp only [entryJson, Json.stringify, stringifyFields, String.length_append, hq, hd, ht]
  decide

/-- C5 counterexample: the claim quantifies over every value `v`, but
`saveToCache` skips any payload whose serialization exceeds 500KB, so for a
600000-character string the immediately following `getFromCache` returns
absent instead of a value deep-equal to `v`. -/
theorem cache_roundtrip_counterexample :
    (getFromCache (saveToCache emptyStore ("k") (Json.str bigStr) 0) ("k") 0).1 = none := by
  have hsave : saveToCache emptyStore ("k") (Json.str bigStr) 0 = emptyStore := by
    unfold saveToCache
    exact if_pos big_serialized_length
  rw [hsave]
  rfl

/-- C5 amended: for every key and every value whose serialized entry is within
the 500KB limit, `saveToCache` followed immediately by `getFromCache` returns
a value deep-equal to `v`; once strictly more than the 30-minute TTL measured
from write time has elapsed, `getFromCache` returns absent and deletes the
entry from the store as a side effect. -/
theorem cache_roundtrip_and_expiry (st : CacheStore) (key : String) (v : Json) (t t' : Int)
    (hsize : (Json.stringify (entryJson ⟨v, t⟩)).length ≤ 500 * 1024)
    (hexp : CACHE_EXPIRY_MS < t' - t) :
    (getFromCache (saveToCache st key v t) key t).1 = some v
    ∧ (getFromCache (saveToCache st key v t) key t').1 = none
    ∧ (getFromCache (saveToCache st key v t) key t').2 (cacheNs ++ key) = none := by
  have hsave : saveToCache st key v t = storeSet (cacheNs ++ key) ⟨v, t⟩ st := by
    unfold saveToCache
    exact if_neg (not_lt.2 hsize)
  have hget : storeSet (cacheNs ++ key) ⟨v, t⟩ st (cacheNs ++ key) = some ⟨v, t⟩ := by
    unfold storeSet
    exact if_pos rfl
  have hfresh : ¬ CACHE_EXPIRY_MS < (0 : Int) := by unfold CACHE_EXPIRY_MS; omega
  refine ⟨?_, ?_, ?_⟩
  · rw [hsave]
    unfold getFromCache
    rw [hget]
    simp [hfresh]
  · rw [hsave]
    unfold getFromCache
    rw [hget]
    simp [hexp]
  · rw [hsave]
    unfold getFromCache
    rw [hget]
    simp [hexp, storeRemove]

theorem cache_roundtrip_and_expiry_witness :
    (getFromCache (saveToCache emptyStore ("k") Json.null 0) ("k") 0).1 = some Json.null
    ∧ (getFromCache (saveToCache emptyStore ("k") Json.null 0) ("k") 1800001).1 = none
    ∧ (getFromCache (saveToCache emptyStore ("k") Json.null 0) ("k") 1800001).2
        (cacheNs ++ "k") = none :=
  cache_roundtrip_and_expiry emptyStore ("k") Json.null 0 1800001 (by decide) (by decide)

/-- Characterisation of the since-filtered page loop: the kept PRs are exactly
the concatenation, over the requested pages, of each page's date-filtered
records, and a page `p + 1` is only requested after page `p` answered with a
full page whose date filter kept at least one PR. -/
theorem fetchPRPagesAux_spec (pages : Nat → Option (List RawPR)) (sinceTs : Int) :
    ∀ fuel page,
      (fetchPRPagesAux pages sinceTs page fuel).1
        = ((fetchPRPagesAux pages sinceTs page fuel).2.map fun p =>
            (((pages p).getD []).filter fun pr => sinceTs ≤ prEffDate pr).map toBasicPR).flatten
      ∧ ∀ p, page ≤ p → (p + 1) ∈ (fetchPRPagesAux pages sinceTs page fuel).2 →
          (pages p).isSome ∧ 100 ≤ ((pages p).getD []).length
          ∧ ((pages p).getD []).filter (fun pr => sinceTs ≤ prEffDate pr) ≠ [] := by
  intro fuel
  induction fuel with
  | zero =>
    intro page
    refine ⟨rfl, ?_⟩
    intro p _ hmem
    simp [fetchPRPagesAux] at hmem
  | succ fuel ih =>
    intro page
    cases hpg : pages page with
    | none =>
      refine ⟨by simp [fetchPRPagesAux, hpg], ?_⟩
      intro p hpp hmem
      simp [fetchPRPagesAux, hpg] at hmem
      exfalso
      omega
    | some data =>
      by_cases hstop : 0 < data.length ∧ (data.filter fun pr => sinceTs ≤ prEffDate pr).length = 0
      · have hfe : (data.filter fun pr => sinceTs ≤ prEffDate pr) = [] :=
          List.length_eq_zero.1 hstop.2
        refine ⟨?_, ?_⟩
        · simp [fetchPRPagesAux, hpg, hstop, hfe]
        · intro p hpp hmem
          simp [fetchPRPagesAux, hpg, hstop] at hmem
          exfalso
          omega
      · by_cases hshort : data.length < 100
        · refine ⟨?_, ?_⟩
          · simp only [fetchPRPagesAux, hpg]
            rw [if_neg hstop, if_pos hshort]
            simp [hpg]
          · intro p hpp hmem
            simp only [fetchPRPagesAux, hpg] at hmem
            rw [if_neg hstop, if_pos hshort] at hmem
            simp at hmem
            exfalso
            omega
        · have ihp := ih (page + 1)
          refine ⟨?_, ?_⟩
          · simp only [fetchPRPagesAux, hpg, if_neg hstop, if_neg hshort]
            simp [ihp.1, hpg]
          · intro p hpp hmem
            simp only [fetchPRPagesAux, hpg, if_neg hstop, if_neg hshort,
              List.mem_cons] at hmem
            rcases hmem with h1 | h2
            · exfalso
              omega
            · by_cases hpe : p = page
              · subst hpe
                refine ⟨by simp [hpg], by simp [hpg]; omega, ?_⟩
                simp only [hpg, Option.getD_some]
                intro hnil
                exact hstop ⟨by omega, by simp [hnil]⟩
              · exact ihp.2 p (by omega) h2

/-- C7: in `fetchPullRequests` with a sinceDate, the kept PRs are exactly the
date-filtered records of the requested pages (a PR is kept only if its
effective date `merged_at || closed_at || updated_at` is on or after the
cutoff), and a further page is requested only when the previous page was full
and its filter kept at least one PR — so a nonempty page filtered down to zero
kept PRs stops pagination. -/
theorem fetchPullRequests_since_spec (pages : Nat → Option (List RawPR)) (sinceTs : Int) :
    (fetchPullRequestsSince pages sinceTs).1
      = ((fetchPullRequestsSince pages sinceTs).2.map fun p =>
          (((pages p).getD []).filter fun pr => sinceTs ≤ prEffDate pr).map toBasicPR).flatten
    ∧ ∀ p, 1 ≤ p → (p + 1) ∈ (fetchPullRequestsSince pages sinceTs).2 →
        (pages p).isSome ∧ 100 ≤ ((pages p).getD []).length
        ∧ ((pages p).getD []).filter (fun pr => sinceTs ≤ prEffDate pr) ≠ [] := by
  have h := fetchPRPagesAux_spec pages sinceTs 10 1
  exact ⟨h.1, fun p hp => h.2 p hp⟩

theorem fetchPullRequests_since_spec_witness :
    ((fetchPullRequestsSince pagesW 40).1
      = ((fetchPullRequestsSince pagesW 40).2.map fun p =>
          (((pagesW p).getD []).filter fun pr => 40 ≤ prEffDate pr).map toBasicPR).flatten)
    ∧ ((pagesW 1).isSome ∧ 100 ≤ ((pagesW 1).getD []).length
        ∧ ((pagesW 1).getD []).filter (fun pr => 40 ≤ prEffDate pr) ≠ []) :=
  ⟨(fetchPullRequests_since_spec pagesW 40).1,
   (fetchPullRequests_since_spec pagesW 40).2 1 (by decide) (by decide)⟩

theorem assocFind_mem : ∀ (l : List (Int × WeekEntry)) (k : Int) (e : WeekEntry),
    assocFind k l = some e → (k, e) ∈ l := by
  intro l
  induction l with
  | nil => intro k e h; simp [assocFind] at h
  | cons q rest ih =>
    intro k e h
    obtain ⟨k', v⟩ := q
    simp only [assocFind] at h
    split at h
    · next heq =>
      injection h with h'
      subst h'
      subst heq
      exact List.mem_cons_self _ _
    · exact List.mem_cons_of_mem _ (ih k e h)

/-- Entries of `weekMap` carry their own key as `week` field (the base entry is
created as `{...w, week: normalizedTs}` and merging never touches `week`). -/
theorem insertWeekEntry_entries (n : Int) (w : WeekEntry) :
    ∀ l, (∀ q ∈ l, (q : Int × WeekEntry).2.week = q.1) →
      ∀ q ∈ insertWeekEntry n w l, (q : Int × WeekEntry).2.week = q.1 := by
  intro l
  induction l with
  | nil =>
    intro _ q hq
    simp only [insertWeekEntry, List.mem_singleton] at hq
    subst hq
    rfl
  | cons p rest ih =>
    intro hl q hq
    obtain ⟨k', e'⟩ := p
    simp only [insertWeekEntry] at hq
    split at hq
    · rcases List.mem_cons.1 hq with rfl | hq'
      · exact hl (k', e') (List.mem_cons_self _ _)
      · exact hl q (List.mem_cons_of_mem _ hq')
    · rcases List.mem_cons.1 hq with rfl | hq'
      · exact hl (k', e') (List.mem_cons_self _ _)
      · exact ih (fun q hq => hl q (List.mem_cons_of_mem _ hq)) q hq'

theorem buildWeekMap_entries (l : List WeekEntry) :
    ∀ q ∈ buildWeekMap l, (q : Int × WeekEntry).2.week = q.1 := by
  unfold buildWeekMap
  suffices h : ∀ (l : List WeekEntry) (acc : List (Int × WeekEntry)),
      (∀ q ∈ acc, (q : Int × WeekEntry).2.week = q.1) →
      ∀ q ∈ l.foldl (fun acc w => insertWeekEntry (weekTsOfMs (w.week * 1000)) w acc) acc,
        (q : Int × WeekEntry).2.week = q.1 by
    exact h l [] (by simp)
  intro l
  induction l with
  | nil => intro acc hacc q hq; exact hacc q hq
  | cons w rest ih =>
    intro acc hacc q hq
    exact ih _ (insertWeekEntry_entries _ _ _ hacc) q hq

theorem length_fillWeeks (wm : List (Int × WeekEntry)) (st : Int) (mw : Nat) :
    (fillWeeks wm st mw).length = mw := by
  unfold fillWeeks
  rw [List.length_map, List.length_range]

theorem fillWeeks_getElem (wm : List (Int × WeekEntry)) (st : Int) (mw : Nat) (i : Nat)
    (hi : i < (fillWeeks wm st mw).length) :
    (fillWeeks wm st mw)[i] = fillWeekAt wm (st + (i : Int) * 604800) := by
  have hi' : i < mw := by
    rw [← length_fillWeeks wm st mw]
    exact hi
  unfold fillWeeks
  rw [List.getElem_map]
  rw [List.getElem_range]

theorem fillWeekAt_week (wm : List (Int × WeekEntry))
    (hwm : ∀ q ∈ wm, (q : Int × WeekEntry).2.week = q.1) (ts : Int) :
    (fillWeekAt wm ts).week = ts := by
  unfold fillWeekAt
  cases h : assocFind ts wm with
  | none => rfl
  | some e => exact hwm (ts, e) (assocFind_mem _ _ _ h)

theorem fillWeeks_week (wm : List (Int × WeekEntry)) (st : Int) (mw : Nat)
    (hwm : ∀ q ∈ wm, (q : Int × WeekEntry).2.week = q.1) (i : Nat)
    (hi : i < (fillWeeks wm st mw).length) :
    ((fillWeeks wm st mw)[i]).week = st + (i : Int) * 604800 := by
  rw [fillWeeks_getElem wm st mw i hi]
  exact fillWeekAt_week wm hwm _

theorem fillWeeks_zero_of_none (wm : List (Int × WeekEntry)) (st : Int) (mw : Nat) (i : Nat)
    (hi : i < mw) (hmiss : assocFind (st + (i : Int) * 604800) wm = none) :
    (fillWeeks wm st mw)[i]? = some (zeroWeekEntry (st + (i : Int) * 604800)) := by
  have hlen : i < (fillWeeks wm st mw).length := by
    rw [length_fillWeeks]
    exact hi
  rw [List.getElem?_eq_getElem hlen, fillWeeks_getElem wm st mw i hlen]
  unfold fillWeekAt
  rw [hmiss]

/-- Every value of `weekTsOfMs` is a Sunday-aligned week start: it is `259200`
(= 3 days, the offset of 1970-01-04, the first Sunday of the epoch) modulo
`604800` (= 7 days) in seconds. -/
theorem weekTsOfMs_emod (t : Int) : weekTsOfMs t % 604800 = 259200 := by
  have h : weekTsOfMs t = (t / 86400000 - (t / 86400000 + 4) % 7) * 86400 := rfl
  rw [h]
  generalize t / 86400000 = d
  omega

/-- C2: every output record's `weeklyData` has length exactly `maxWeeks`
(`ceil(daysFilter/7)` when a positive filter is set, 52 when null); its week
keys form a contiguous run spaced exactly 7 days (604800 s) apart, ending at
the current Sunday-aligned week (`weekTsOfMs now`, index `maxWeeks - 1`) and
starting `maxWeeks - 1` weeks earlier, all Sunday-aligned, hence with no
duplicates and no gaps; weeks missing from the user's normalized week map are
emitted as zero-filled entries. -/
theorem aggregateStats_weekly_window (repoData : List RepoData) (df : Option Nat) (now : Int)
    (r : OutRecord) (hr : r ∈ aggregateStats repoData df now) :
    r.weeklyData.length = maxWeeks df
    ∧ (∀ i, (hi : i < r.weeklyData.length) →
        (r.weeklyData[i]).week
          = weekTsOfMs now + ((i : Int) - ((maxWeeks df : Int) - 1)) * 604800)
    ∧ (∀ i, (hi : i < r.weeklyData.length) → (r.weeklyData[i]).week % 604800 = 259200)
    ∧ (∃ wm, (∀ q ∈ wm, (q : Int × WeekEntry).2.week = q.1)
        ∧ r.weeklyData
            = fillWeeks wm (weekTsOfMs now - ((maxWeeks df : Int) - 1) * 604800) (maxWeeks df)
        ∧ ∀ i, i < maxWeeks df →
            assocFind (weekTsOfMs now - ((maxWeeks df : Int) - 1) * 604800 + (i : Int) * 604800)
              wm = none →
            r.weeklyData[i]?
              = some (zeroWeekEntry
                  (weekTsOfMs now - ((maxWeeks df : Int) - 1) * 604800 + (i : Int) * 604800)))
    ∧ maxWeeks none = 52
    ∧ (∀ k : Nat, 0 < k → maxWeeks (some k) = (k + 6) / 7) := by
  obtain ⟨s, -, -, rfl⟩ := mem_aggregateStats hr
  have hwm : ∀ q ∈ buildWeekMap (userWeeklyArray s), (q : Int × WeekEntry).2.week = q.1 :=
    buildWeekMap_entries _
  refine ⟨?_, ?_, ?_, ?_, rfl, ?_⟩
  · rw [emitRecord_weeklyData, length_fillWeeks]
  · intro i hi
    have h := fillWeeks_week (buildWeekMap (userWeeklyArray s))
      (weekTsOfMs now - ((maxWeeks df : Int) - 1) * 604800) (maxWeeks df) hwm i hi
    rw [show ((emitRecord df now s).weeklyData[i]).week
        = weekTsOfMs now - ((maxWeeks df : Int) - 1) * 604800 + (i : Int) * 604800 from h]
    ring
  · intro i hi
    have h := fillWeeks_week (buildWeekMap (userWeeklyArray s))
      (weekTsOfMs now - ((maxWeeks df : Int) - 1) * 604800) (maxWeeks df) hwm i hi
    rw [show ((emitRecord df now s).weeklyData[i]).week
        = weekTsOfMs now - ((maxWeeks df : Int) - 1) * 604800 + (i : Int) * 604800 from h]
    have h1 := weekTsOfMs_emod now
    generalize weekTsOfMs now = e at h1 ⊢
    omega
  · refine ⟨buildWeekMap (userWeeklyArray s), hwm, emitRecord_weeklyData df now s, ?_⟩
    intro i hi hmiss
    rw [emitRecord_weeklyData]
    exact fillWeeks_zero_of_none _ _ _ i hi hmiss
  · intro k hk
    unfold maxWeeks dfActive
    simp [Nat.pos_iff_ne_zero.1 hk]

theorem aggregateStats_weekly_window_witness :
    (aggregateStats [⟨"w2", [⟨"abc", some ("cara"), none, "m", 1700000000000, "u"⟩], [], []⟩]
        (some 30) 1700000000000).headI.weeklyData.length = maxWeeks (some 30) :=
  (aggregateStats_weekly_window
    [⟨"w2", [⟨"abc", some ("cara"), none, "m", 1700000000000, "u"⟩], [], []⟩]
    (some 30) 1700000000000 _ (by decide)).1

theorem dfActive_some {d : Nat} (hd : 0 < d) : dfActive (some d) = true := by
  simp only [dfActive, ne_eq, bne_iff_ne]
  omega

theorem cutoffTs_some {d : Nat} (hd : 0 < d) (now : Int) :
    cutoffTs (some d) now = (now - (d : Int) * 86400000) / 1000 := by
  unfold cutoffTs
  rw [if_pos (dfActive_some hd)]
  rfl

/-- Evaluation of `aggregateStats` on a single-commit input with an active
days filter: the commit is dropped iff its second-truncated timestamp precedes
the second-truncated cutoff. -/
theorem aggregateStats_single_commit (d : Nat) (hd : 0 < d) (now : Int) (rn : String)
    (c : Commit) (u : String) (hu : c.user = some u) :
    aggregateStats [⟨rn, [c], [], []⟩] (some d) now
      = if c.date / 1000 < (now - (d : Int) * 86400000) / 1000 then []
        else [emitRecord (some d) now (applyCommit rn c (freshUser u c.avatar_url))] := by
  have h1 : buildUserMap [⟨rn, [c], [], []⟩] (some d) now = processCommit (some d) now rn [] c :=
    rfl
  have h2 : processCommit (some d) now rn [] c
      = if c.date / 1000 < (now - (d : Int) * 86400000) / 1000 then []
        else [(u, applyCommit rn c (freshUser u c.avatar_url))] := by
    simp only [processCommit, hu, dfActive_some hd, cutoffTs_some hd, true_and, upsertUser]
  by_cases hlt : c.date / 1000 < (now - (d : Int) * 86400000) / 1000
  · rw [if_pos hlt] at h2 ⊢
    unfold aggregateStats
    rw [h1, h2]
    rfl
  · rw [if_neg hlt] at h2 ⊢
    unfold aggregateStats
    rw [h1, h2]
    have hact : hasActivity (applyCommit rn c (freshUser u c.avatar_url)) = true := by
      have h3 : (applyCommit rn c (freshUser u c.avatar_url)).commits = 1 := rfl
      simp [hasActivity, h3]
    simp [hact]

/-- C3 counterexample: the cutoff instant `now - 7 days` here is
`1699395200500` ms, not on a whole-second boundary; the commit is dated
`1699395200499` ms, exactly one millisecond before the cutoff, and the claim
says it must be excluded — but `aggregateStats` keeps it (both timestamps
truncate to the same second), emitting the contributor with one commit. -/
theorem aggregateStats_cutoff_counterexample :
    ((aggregateStats
        [⟨"r", [⟨"abc1234", some ("alice"), some ("av"), "m", 1699395200499, "u"⟩], [], []⟩]
        (some 7) 1700000000500).map fun r => (r.user, r.commits)) = [("alice", 1)]
    ∧ (1699395200499 : Int) = 1700000000500 - 7 * 86400000 - 1 := by
  constructor
  · decide
  · decide

/-- C3 amended: with a time window set, a commit dated exactly at the cutoff
instant (`now - daysFilter` days) is included in the contributor's totals;
filtering compares timestamps truncated to whole seconds, so a commit dated
one millisecond before the cutoff is still included whenever the cutoff
instant does not fall on a whole-second boundary, and in general a commit is
excluded exactly when `floor(date/1000) < floor(cutoff/1000)`. -/
theorem aggregateStats_cutoff_boundary (d : Nat) (hd : 0 < d) (now : Int)
    (rn sha msg url u av : String) (dateMs : Int)
    (hdate : dateMs = now - (d : Int) * 86400000
      ∨ (dateMs = now - (d : Int) * 86400000 - 1 ∧ (now - (d : Int) * 86400000) % 1000 ≠ 0)) :
    ((aggregateStats [⟨rn, [⟨sha, some u, some av, msg, dateMs, url⟩], [], []⟩]
        (some d) now).map fun r => (r.user, r.commits)) = [(u, 1)]
    ∧ ∀ dateMs2 : Int, dateMs2 / 1000 < (now - (d : Int) * 86400000) / 1000 →
        aggregateStats [⟨rn, [⟨sha, some u, some av, msg, dateMs2, url⟩], [], []⟩]
          (some d) now = [] := by
  constructor
  · have hnot : ¬ ((⟨sha, some u, some av, msg, dateMs, url⟩ : Commit).date / 1000
        < (now - (d : Int) * 86400000) / 1000) := by
      show ¬ (dateMs / 1000 < (now - (d : Int) * 86400000) / 1000)
      rcases hdate with rfl | ⟨rfl, hm⟩
      · omega
      · omega
    rw [aggregateStats_single_commit d hd now rn _ u rfl, if_neg hnot]
    rfl
  · intro dateMs2 hlt
    rw [aggregateStats_single_commit d hd now rn _ u rfl]
    rw [if_pos (show (⟨sha, some u, some av, msg, dateMs2, url⟩ : Commit).date / 1000
      < (now - (d : Int) * 86400000) / 1000 from hlt)]

theorem aggregateStats_cutoff_boundary_witness :
    ((aggregateStats
        [⟨"r", [⟨"s1", some ("dee"), some ("av"), "m", 1699395200500, "u"⟩], [], []⟩]
        (some 7) 1700000000500).map fun r => (r.user, r.commits)) = [("dee", 1)]
    ∧ aggregateStats
        [⟨"r", [⟨"s1", some ("dee"), some ("av"), "m", 1699395199999, "u"⟩], [], []⟩]
        (some 7) 1700000000500 = [] := by
  have h := aggregateStats_cutoff_boundary 7 (by decide) 1700000000500 "r" "s1" "m" "u"
    "dee" "av" 1699395200500 (Or.inl (by decide))
  exact ⟨h.1, h.2 1699395199999 (by decide)⟩

theorem foldl_userMap_inv {β : Type} (step : UserMap → β → UserMap) (P : UserStats → Prop)
    (hstep : ∀ m b, (∀ p ∈ m, P p.2) → ∀ p ∈ step m b, P p.2) :
    ∀ (l : List β) (m : UserMap), (∀ p ∈ m, P p.2) → ∀ p ∈ l.foldl step m, P p.2 := by
  intro l
  induction l with
  | nil => intro m hm p hp; exact hm p hp
  | cons b rest ih => intro m hm p hp; exact ih _ (hstep m b hm) p hp

theorem upsertUser_inv (P : UserStats → Prop) (u : String) (fresh : UserStats)
    (f : UserStats → UserStats) (hfresh : P (f fresh)) (hf : ∀ s, P s → P (f s)) :
    ∀ (m : UserMap), (∀ p ∈ m, P p.2) → ∀ p ∈ upsertUser m u fresh f, P p.2 := by
  intro m
  induction m with
  | nil =>
    intro _ p hp
    simp only [upsertUser, List.mem_singleton] at hp
    subst hp
    exact hfresh
  | cons q rest ih =>
    intro hm p hp
    obtain ⟨k, v⟩ := q
    simp only [upsertUser] at hp
    split at hp
    · rcases List.mem_cons.1 hp with rfl | hp'
      · exact hf v (hm (k, v) (List.mem_cons_self _ _))
      · exact hm p (List.mem_cons_of_mem _ hp')
    · rcases List.mem_cons.1 hp with rfl | hp'
      · exact hm (k, v) (List.mem_cons_self _ _)
      · exact ih (fun q hq => hm q (List.mem_cons_of_mem _ hq)) p hp'

theorem applyCommit_prsList (rn : String) (c : Commit) (s : UserStats) :
    (applyCommit rn c s).prsList = s.prsList := by
  simp only [applyCommit]
  split <;> rfl

theorem applyCommit_reviewsList (rn : String) (c : Commit) (s : UserStats) :
    (applyCommit rn c s).reviewsList = s.reviewsList := by
  simp only [applyCommit]
  split <;> rfl

theorem applyCommit_commitsList_le (rn : String) (c : Commit) (s : UserStats)
    (h3 : s.commitsList.length ≤ 20) : (applyCommit rn c s).commitsList.length ≤ 20 := by
  simp only [applyCommit]
  split
  · next hlt =>
    simp only [List.length_append, List.length_singleton]
    omega
  · exact h3

theorem applyCommit_bounded (rn : String) (c : Commit) (s : UserStats)
    (h : s.prsList.length ≤ 20 ∧ s.reviewsList.length ≤ 20 ∧ s.commitsList.length ≤ 20) :
    (applyCommit rn c s).prsList.length ≤ 20 ∧ (applyCommit rn c s).reviewsList.length ≤ 20
      ∧ (applyCommit rn c s).commitsList.length ≤ 20 := by
  rw [applyCommit_prsList, applyCommit_reviewsList]
  exact ⟨h.1, h.2.1, applyCommit_commitsList_le rn c s h.2.2⟩

theorem applyPR_reviewsList (rn : String) (pr : PR) (s : UserStats) :
    (applyPR rn pr s).reviewsList = s.reviewsList := by
  simp only [applyPR]
  split_ifs <;> rfl

theorem applyPR_commitsList (rn : String) (pr : PR) (s : UserStats) :
    (applyPR rn pr s).commitsList = s.commitsList := by
  simp only [applyPR]
  split_ifs <;> rfl

theorem applyPR_prsList_le (rn : String) (pr : PR) (s : UserStats)
    (h1 : s.prsList.length ≤ 20) : (applyPR rn pr s).prsList.length ≤ 20 := by
  simp only [applyPR]
  split_ifs <;>
    first
    | exact h1
    | · simp only [List.length_append, List.length_singleton]
        omega

theorem applyPR_bounded (rn : String) (pr : PR) (s : UserStats)
    (h : s.prsList.length ≤ 20 ∧ s.reviewsList.length ≤ 20 ∧ s.commitsList.length ≤ 20) :
    (applyPR rn pr s).prsList.length ≤ 20 ∧ (applyPR rn pr s).reviewsList.length ≤ 20
      ∧ (applyPR rn pr s).commitsList.length ≤ 20 := by
  rw [applyPR_reviewsList, applyPR_commitsList]
  exact ⟨applyPR_prsList_le rn pr s h.1, h.2.1, h.2.2⟩

theorem pushReviewItem_length (rn : String) (l : List ReviewItem) (p : PRRef)
    (h : l.length ≤ 20) : (pushReviewItem rn l p).length ≤ 20 := by
  simp only [pushReviewItem]
  split
  · next hc =>
    simp only [List.length_append, List.length_singleton]
    omega
  · exact h

theorem foldl_pushReviewItem_length (rn : String) :
    ∀ (ps : List PRRef) (l : List ReviewItem), l.length ≤ 20 →
      (ps.foldl (pushReviewItem rn) l).length ≤ 20 := by
  intro ps
  induction ps with
  | nil => intro l h; exact h
  | cons p rest ih => intro l h; exact ih _ (pushReviewItem_length rn l p h)

theorem processReviewDate_lists (df : Option Nat) (now : Int) (s : UserStats) (dt : Int) :
    (processReviewDate df now s dt).prsList = s.prsList
    ∧ (processReviewDate df now s dt).reviewsList = s.reviewsList
    ∧ (processReviewDate df now s dt).commitsList = s.commitsList := by
  refine ⟨?_, ?_, ?_⟩ <;>
    · simp only [processReviewDate]
      split_ifs <;> rfl

theorem foldl_processReviewDate_lists (df : Option Nat) (now : Int) :
    ∀ (dates : List Int) (s : UserStats),
      ((dates.foldl (processReviewDate df now) s).prsList = s.prsList
        ∧ (dates.foldl (processReviewDate df now) s).reviewsList = s.reviewsList
        ∧ (dates.foldl (processReviewDate df now) s).commitsList = s.commitsList) := by
  intro dates
  induction dates with
  | nil => intro s; exact ⟨rfl, rfl, rfl⟩
  | cons dt rest ih =>
    intro s
    have h1 := processReviewDate_lists df now s dt
    have h2 := ih (processReviewDate df now s dt)
    exact ⟨h2.1.trans h1.1, h2.2.1.trans h1.2.1, h2.2.2.trans h1.2.2⟩

theorem applyReviewInfo_lists (df : Option Nat) (now : Int) (rn : String) (info : ReviewInfo)
    (s : UserStats) :
    (applyReviewInfo df now rn info s).prsList = s.prsList
    ∧ (applyReviewInfo df now rn info s).reviewsList
        = (reviewPRs info).foldl (pushReviewItem rn) s.reviewsList
    ∧ (applyReviewInfo df now rn info s).commitsList = s.commitsList := by
  have hfold := foldl_processReviewDate_lists df now (reviewDates info)
    { s with reviewsList := (reviewPRs info).foldl (pushReviewItem rn) s.reviewsList }
  refine ⟨?_, ?_, ?_⟩ <;>
    · simp only [applyReviewInfo]
      split <;> split <;> simp [hfold.1, hfold.2.1, hfold.2.2]

theorem applyReviewInfo_bounded (df : Option Nat) (now : Int) (rn : String) (info : ReviewInfo)
    (s : UserStats)
    (h : s.prsList.length ≤ 20 ∧ s.reviewsList.length ≤ 20 ∧ s.commitsList.length ≤ 20) :
    (applyReviewInfo df now rn info s).prsList.length ≤ 20
    ∧ (applyReviewInfo df now rn info s).reviewsList.length ≤ 20
    ∧ (applyReviewInfo df now rn info s).commitsList.length ≤ 20 := by
  have hl := applyReviewInfo_lists df now rn info s
  rw [hl.1, hl.2.1, hl.2.2]
  exact ⟨h.1, foldl_pushReviewItem_length rn _ _ h.2.1, h.2.2⟩

theorem processCommit_inv (df : Option Nat) (now : Int) (rn : String)
    (P : UserStats → Prop)
    (hfresh : ∀ u av, P (freshUser u av))
    (happly : ∀ c s, P s → P (applyCommit rn c s)) :
    ∀ (m : UserMap) (c : Commit), (∀ p ∈ m, P p.2) →
      ∀ p ∈ processCommit df now rn m c, P p.2 := by
  intro m c hm p
  intro hp
  revert hp
  cases hcu : c.user with
  | none =>
    intro hp
    simp only [processCommit, hcu] at hp
    exact hm p hp
  | some u =>
    intro hp
    simp only [processCommit, hcu] at hp
    split at hp
    · exact hm p hp
    · exact upsertUser_inv P u _ _ (happly c _ (hfresh u c.avatar_url)) (happly c) m hm p hp

theorem processPR_inv (df : Option Nat) (now : Int) (rn : String)
    (P : UserStats → Prop)
    (hfresh : ∀ u av, P (freshUser u av))
    (happly : ∀ pr s, P s → P (applyPR rn pr s)) :
    ∀ (m : UserMap) (pr : PR), (∀ p ∈ m, P p.2) →
      ∀ p ∈ processPR df now rn m pr, P p.2 := by
  intro m pr hm p hp
  revert hp
  cases hpu : pr.user with
  | none =>
    intro hp
    simp only [processPR, hpu] at hp
    exact hm p hp
  | some u =>
    intro hp
    simp only [processPR, hpu] at hp
    split at hp
    · exact hm p hp
    · exact upsertUser_inv P u _ _ (happly pr _ (hfresh u pr.avatar_url)) (happly pr) m hm p hp

theorem processReviewEntry_inv (df : Option Nat) (now : Int) (rn : String)
    (P : UserStats → Prop)
    (hfresh : ∀ u av, P (freshUser u av))
    (happly : ∀ info s, P s → P (applyReviewInfo df now rn info s)) :
    ∀ (m : UserMap) (entry : String × ReviewInfo), (∀ p ∈ m, P p.2) →
      ∀ p ∈ processReviewEntry df now rn m entry, P p.2 := by
  intro m entry hm p hp
  simp only [processReviewEntry] at hp
  exact upsertUser_inv P entry.1 _ _ (happly entry.2 _ (hfresh entry.1 none))
    (happly entry.2) m hm p hp

/-- Every accumulator entry of `buildUserMap` has all three bounded lists of
length at most 20. -/
theorem buildUserMap_bounded (repoData : List RepoData) (df : Option Nat) (now : Int) :
    ∀ p ∈ buildUserMap repoData df now,
      (p : String × UserStats).2.prsList.length ≤ 20
      ∧ (p : String × UserStats).2.reviewsList.length ≤ 20
      ∧ (p : String × UserStats).2.commitsList.length ≤ 20 := by
  set P : UserStats → Prop := fun s =>
    s.prsList.length ≤ 20 ∧ s.reviewsList.length ≤ 20 ∧ s.commitsList.length ≤ 20 with hP
  have hfresh : ∀ u av, P (freshUser u av) := by
    intro u av
    simp [hP, freshUser]
  have hrepo : ∀ m rd, (∀ p ∈ m, P p.2) → ∀ p ∈ processRepo df now m rd, P p.2 := by
    intro m rd hm
    unfold processRepo
    refine foldl_userMap_inv _ P
      (processReviewEntry_inv df now rd.repoName P hfresh
        (fun info s hs => applyReviewInfo_bounded df now rd.repoName info s hs)) _ _ ?_
    refine foldl_userMap_inv _ P
      (processPR_inv df now rd.repoName P hfresh
        (fun pr s hs => applyPR_bounded rd.repoName pr s hs)) _ _ ?_
    exact foldl_userMap_inv _ P
      (processCommit_inv df now rd.repoName P hfresh
        (fun c s hs => applyCommit_bounded rd.repoName c s hs)) _ _ hm
  exact foldl_userMap_inv _ P hrepo repoData [] (by simp)

/-- C9 counterexample: all 21 commits of `repo21` qualify (the contributor's
total is 21), yet the emitted `commitsList` holds only the first 20 commits
encountered in processing order and does not contain `c21`, the most recent
qualifying commit — so the bounded list does not hold the most-recent items. -/
theorem aggregateStats_bounded_lists_counterexample :
    ((aggregateStats [repo21] none 0).map fun r =>
      (r.commits, r.commitsList.length, decide (r.commitsList.any fun ci => ci.sha == "c21")))
      = [(21, 20, false)] := by
  decide

/-- C9 amended: every output record's three bounded lists (commits, authored
PRs, reviewed PRs) contain at most 20 entries each, capped at the first 20
qualifying items in processing order (not necessarily the globally most recent
ones); the commits and authored-PRs lists are sorted most-recent-first by date
at emission, while the reviewed-PRs list keeps insertion order. -/
theorem aggregateStats_bounded_lists (repoData : List RepoData) (df : Option Nat) (now : Int)
    (r : OutRecord) (hr : r ∈ aggregateStats repoData df now) :
    r.commitsList.length ≤ 20 ∧ r.prsList.length ≤ 20 ∧ r.reviewsList.length ≤ 20
    ∧ List.Sorted (fun a b : CommitItem => b.date ≤ a.date) r.commitsList
    ∧ List.Sorted (fun a b : PRItem => b.date ≤ a.date) r.prsList := by
  obtain ⟨s, hsm, -, rfl⟩ := mem_aggregateStats hr
  obtain ⟨p, hp, rfl⟩ := List.mem_map.1 hsm
  have hb := buildUserMap_bounded repoData df now p hp
  refine ⟨?_, ?_, ?_, ?_, ?_⟩
  · rw [emitRecord_commitsList, List.length_insertionSort]
    exact hb.2.2
  · rw [emitRecord_prsList, List.length_insertionSort]
    exact hb.1
  · rw [emitRecord_reviewsList]
    exact hb.2.1
  · rw [emitRecord_commitsList]
    exact List.sorted_insertionSort _ _
  · rw [emitRecord_prsList]
    exact List.sorted_insertionSort _ _

theorem aggregateStats_bounded_lists_witness :
    (aggregateStats [repo21] none 0).headI.commitsList.length ≤ 20
    ∧ (aggregateStats [repo21] none 0).headI.prsList.length ≤ 20
    ∧ (aggregateStats [repo21] none 0).headI.reviewsList.length ≤ 20
    ∧ List.Sorted (fun a b : CommitItem => b.date ≤ a.date)
        (aggregateStats [repo21] none 0).headI.commitsList
    ∧ List.Sorted (fun a b : PRItem => b.date ≤ a.date)
        (aggregateStats [repo21] none 0).headI.prsList :=
  aggregateStats_bounded_lists [repo21] none 0 _ (by decide)

theorem buildItems_length (collect : Nat → String → Except String RepoFetchResult) :
    ∀ (repos : List Repo) (i : Nat), (buildItems collect i repos).length = repos.length := by
  intro repos
  induction repos with
  | nil => intro i; rfl
  | cons r rest ih => intro i; simp [buildItems, ih]

theorem buildItems_getElem? (collect : Nat → String → Except String RepoFetchResult) :
    ∀ (repos : List Repo) (i j : Nat),
      (buildItems collect i repos)[j]? = (repos[j]?).map fun repo => repoItem collect (i + j) repo := by
  intro repos
  induction repos with
  | nil => intro i j; simp [buildItems]
  | cons r rest ih =>
    intro i j
    cases j with
    | zero => simp [buildItems]
    | succ j =>
      simp only [buildItems, List.getElem?_cons_succ]
      rw [ih (i + 1) j, show i + 1 + j = i + (j + 1) from by omega]

theorem loop_arr (collect : Nat → String → Except String RepoFetchResult)
    (df : Option Nat) (now : Int) (total : Nat) :
    ∀ (rest : List Repo) (i : Nat) (acc : List RepoData),
      (fetchAllStatsLoop collect df now total i acc rest).1 = acc ++ buildItems collect i rest := by
  intro rest
  induction rest with
  | nil => intro i acc; simp [fetchAllStatsLoop, buildItems]
  | cons repo rs ih =>
    intro i acc
    simp only [fetchAllStatsLoop, buildItems]
    rw [ih (i + 1) (acc ++ [repoItem collect i repo])]
    simp

theorem loop_logs (collect : Nat → String → Except String RepoFetchResult)
    (df : Option Nat) (now : Int) (total : Nat) :
    ∀ (rest : List Repo) (i : Nat) (acc : List RepoData),
      (fetchAllStatsLoop collect df now total i acc rest).2.1 = joinLogs collect total i rest := by
  intro rest
  induction rest with
  | nil => intro i acc; rfl
  | cons repo rs ih =>
    intro i acc
    simp only [fetchAllStatsLoop, joinLogs]
    rw [ih (i + 1) (acc ++ [repoItem collect i repo])]

theorem loop_progress (collect : Nat → String → Except String RepoFetchResult)
    (df : Option Nat) (now : Int) (total : Nat) :
    ∀ (rest : List Repo) (i : Nat) (acc : List RepoData),
      (fetchAllStatsLoop collect df now total i acc rest).2.2.1 = progList total i rest := by
  intro rest
  induction rest with
  | nil => intro i acc; rfl
  | cons repo rs ih =>
    intro i acc
    simp only [fetchAllStatsLoop, progList]
    rw [ih (i + 1) (acc ++ [repoItem collect i repo])]

theorem loop_snapshots (collect : Nat → String → Except String RepoFetchResult)
    (df : Option Nat) (now : Int) (total : Nat) :
    ∀ (rest : List Repo) (i : Nat) (acc : List RepoData) (j : Nat), j < rest.length →
      (fetchAllStatsLoop collect df now total i acc rest).2.2.2[j]?
        = some (aggregateStats (acc ++ (buildItems collect i rest).take (j + 1)) df now) := by
  intro rest
  induction rest with
  | nil => intro i acc j hj; simp at hj
  | cons repo rs ih =>
    intro i acc j hj
    cases j with
    | zero =>
      simp only [fetchAllStatsLoop, buildItems, List.getElem?_cons_zero, List.take_succ_cons,
        List.take_zero]
    | succ j =>
      have hj' : j < rs.length := by simpa using hj
      simp only [fetchAllStatsLoop, buildItems, List.getElem?_cons_succ, List.take_succ_cons]
      rw [ih (i + 1) (acc ++ [repoItem collect i repo]) j hj']
      rw [List.append_assoc]
      rfl

theorem joinLogs_mem (collect : Nat → String → Except String RepoFetchResult) (total : Nat) :
    ∀ (repos : List Repo) (off j : Nat) (hj : j < repos.length) (e : LogEvent),
      e ∈ repoLogs collect total (off + j) repos[j] → e ∈ joinLogs collect total off repos := by
  intro repos
  induction repos with
  | nil => intro off j hj; simp at hj
  | cons r rs ih =>
    intro off j hj e he
    cases j with
    | zero =>
      simp only [List.getElem_cons_zero, Nat.add_zero] at he
      simp only [joinLogs]
      exact List.mem_append_left _ he
    | succ j =>
      have hj' : j < rs.length := by simpa using hj
      simp only [List.getElem_cons_succ] at he
      rw [show off + (j + 1) = (off + 1) + j from by omega] at he
      simp only [joinLogs]
      exact List.mem_append_right _ (ih (off + 1) j hj' e he)

theorem progList_getElem? (total : Nat) :
    ∀ (repos : List Repo) (off j : Nat), j < repos.length →
      (progList total off repos)[j]? = some (jsRound ((off + j + 1) * 100) total) := by
  intro repos
  induction repos with
  | nil => intro off j hj; simp at hj
  | cons r rs ih =>
    intro off j hj
    cases j with
    | zero => simp [progList]
    | succ j =>
      have hj' : j < rs.length := by simpa using hj
      simp only [progList, List.getElem?_cons_succ]
      rw [ih (off + 1) j hj', show off + 1 + j = off + (j + 1) from by omega]

/-- C8: if collecting one repository throws, `fetchAllStats` logs an `error`
event for it and records the repository with empty commits, PRs, and reviews
while all other repositories keep their fetched data, the run completing over
the whole list (the final result is the aggregation of the full array);
after every repository, including failed ones, progress is reported as
`round((i+1)/total*100)` and a fresh aggregation snapshot over the
repositories processed so far is delivered. -/
theorem fetchAllStats_error_isolated (collect : Nat → String → Except String RepoFetchResult)
    (repos : List Repo) (df : Option Nat) (now : Int) (i : Nat) (msg : String)
    (hi : i < repos.length) (hc : collect i (repos[i]).name = .error msg) :
    LogEvent.error (repos[i]).name (i + 1) repos.length msg
        ∈ (fetchAllStats collect repos df now).logs
    ∧ (fetchAllStats collect repos df now).repoDataArray.length = repos.length
    ∧ (fetchAllStats collect repos df now).repoDataArray[i]?
        = some ⟨(repos[i]).name, [], [], []⟩
    ∧ (fetchAllStats collect repos df now).final
        = aggregateStats (fetchAllStats collect repos df now).repoDataArray df now
    ∧ (∀ j r', (hj : j < repos.length) → collect j (repos[j]).name = .ok r' →
        (fetchAllStats collect repos df now).repoDataArray[j]?
          = some ⟨(repos[j]).name, r'.commits, r'.prs, r'.reviews⟩)
    ∧ (∀ j, j < repos.length →
        (fetchAllStats collect repos df now).progress[j]?
          = some (jsRound ((j + 1) * 100) repos.length))
    ∧ (∀ j, j < repos.length →
        (fetchAllStats collect repos df now).snapshots[j]?
          = some (aggregateStats
              ((fetchAllStats collect repos df now).repoDataArray.take (j + 1)) df now)) := by
  have harr : (fetchAllStats collect repos df now).repoDataArray = buildItems collect 0 repos := by
    show (fetchAllStatsLoop collect df now repos.length 0 [] repos).1 = _
    rw [loop_arr, List.nil_append]
  refine ⟨?_, ?_, ?_, rfl, ?_, ?_, ?_⟩
  · show LogEvent.error (repos[i]).name (i + 1) repos.length msg
      ∈ (fetchAllStatsLoop collect df now repos.length 0 [] repos).2.1
    rw [loop_logs]
    refine joinLogs_mem collect repos.length repos 0 i hi _ ?_
    rw [Nat.zero_add]
    simp [repoLogs, hc]
  · rw [harr, buildItems_length]
  · rw [harr, buildItems_getElem? collect repos 0 i, List.getElem?_eq_getElem hi]
    simp [repoItem, hc]
  · intro j r' hj hcj
    rw [harr, buildItems_getElem? collect repos 0 j, List.getElem?_eq_getElem hj]
    simp [repoItem, hcj]
  · intro j hj
    show (fetchAllStatsLoop collect df now repos.length 0 [] repos).2.2.1[j]? = _
    rw [loop_progress, progList_getElem? repos.length repos 0 j hj, Nat.zero_add]
  · intro j hj
    show (fetchAllStatsLoop collect df now repos.length 0 [] repos).2.2.2[j]? = _
    rw [loop_snapshots collect df now repos.length repos 0 [] j hj, List.nil_append, harr]

theorem fetchAllStats_error_isolated_witness :
    LogEvent.error "rb" 2 2 "boom" ∈ (fetchAllStats collectW reposW (some 7) 0).logs
    ∧ (fetchAllStats collectW reposW (some 7) 0).repoDataArray[1]?
        = some ⟨"rb", [], [], []⟩
    ∧ (fetchAllStats collectW reposW (some 7) 0).progress[1]? = some (jsRound 200 2) := by
  have h := fetchAllStats_error_isolated collectW reposW (some 7) 0 1 ("boom")
    (by decide) rfl
  exact ⟨h.1, h.2.2.1, h.2.2.2.2.2.1 1 (by decide)⟩

end GitLeaderboard
